import Mathlib

/-!
Shallow embedding of the hyperfade ephemeral-storage core (lib/meta.js,
lib/gc.js, lib/time.js, lib/auto-gc.js, lib/hyperdrive-adapter.js) and
proofs about its expiry predicates, GC run, monotonic clock, auto-GC
scheduler and path/id validation.

JavaScript numbers in timestamp position are modelled by `JSTime`:
a finite number carries an integer (timestamps are integer milliseconds),
and the non-finite numbers (NaN, ±Infinity) and values of non-number type
are explicit constructors, since the source distinguishes them with
`typeof x !== 'number'` and `!isFinite(x)` checks.
-/

namespace Hyperfade

/-- A JavaScript value sitting in a timestamp-typed position: a finite
number, a non-finite number (`NaN`, `Infinity`, `-Infinity`), or a value
that is not a number at all (string, object, ...). -/
inductive JSTime where
  | num (x : Int)
  | nan
  | inf
  | ninf
  | notNumber
deriving DecidableEq, Repr

/-- `typeof v === 'number' && isFinite(v)`: true exactly for finite numbers. -/
def jsFiniteNumber : JSTime → Bool
  | .num _ => true
  | _ => false

/-- JavaScript `a <= b` on timestamp values: integer comparison on finite
numbers; comparisons involving `NaN` are false.  (The source only reaches
this comparison after both operands passed finiteness checks.) -/
def jsLe : JSTime → JSTime → Bool
  | .num a, .num b => decide (a ≤ b)
  | _, _ => false

/-- The record type of lib/meta.js (`EphemeralMeta`).  `id` is `some s`
when the field holds a string and `none` otherwise; timestamp fields are
`none` when absent (`undefined`). -/
structure EphemeralMeta where
  id : Option String := none
  createdAt : Option JSTime := none
  updatedAt : Option JSTime := none
  unlockAt : Option JSTime := none
  expiresAt : Option JSTime := none
deriving DecidableEq, Repr

/-- `MAX_TIMESTAMP` of lib/meta.js: a module-level constant computed once
at module load as `Date.now() + 100 * 365 * 24 * 60 * 60 * 1000`.  The
wall-clock time at module load is the parameter `moduleLoadTime`. -/
def MAX_TIMESTAMP (moduleLoadTime : Int) : Int :=
  moduleLoadTime + 100 * 365 * 24 * 60 * 60 * 1000

/-- `validateTimestamp(ts, fieldName, min, max)` of lib/meta.js:
false when `typeof ts !== 'number'`, false when `!isFinite(ts)`,
false when `ts < min || ts > max`, else true. -/
def validateTimestamp (ts : JSTime) (min max : Int) : Bool :=
  match ts with
  | .notNumber => false
  | .nan => false
  | .inf => false
  | .ninf => false
  | .num x => !(decide (x < min) || decide (x > max))

/-- `isExpired(meta, now)` of lib/meta.js.  `t0` is the wall-clock time at
module load (it fixes the `MAX_TIMESTAMP` constant the function closes
over).  A thrown error is modelled as `.error` with the thrown message. -/
def isExpired (t0 : Int) (meta : Option EphemeralMeta) (now : JSTime) :
    Except String Bool :=
  match meta with
  | none => .ok true
  | some m =>
    if jsFiniteNumber now = false then
      .error "[ephemeral] isExpired: now is required and must be finite"
    else
      match m.expiresAt with
      | none => .ok false
      | some .notNumber => .ok false
      | some e =>
        if validateTimestamp e 0 (MAX_TIMESTAMP t0) = false then .ok false
        else .ok (jsLe e now)

/-- `isUnlocked(meta, now)` of lib/meta.js. -/
def isUnlocked (t0 : Int) (meta : Option EphemeralMeta) (now : JSTime) :
    Except String Bool :=
  match meta with
  | none => .ok false
  | some m =>
    if jsFiniteNumber now = false then
      .error "[ephemeral] isUnlocked: now is required and must be finite"
    else
      match m.unlockAt with
      | none => .ok true
      | some .notNumber => .ok true
      | some u =>
        if validateTimestamp u 0 (MAX_TIMESTAMP t0) = false then .ok true
        else .ok (jsLe u now)

/-- Boolean form of `isExpired` for a present record and a finite `now`
(the only way `runEphemeralGC` calls it). -/
def isExpiredB (t0 : Int) (m : EphemeralMeta) (n : Int) : Bool :=
  match m.expiresAt with
  | some (.num x) =>
      validateTimestamp (.num x) 0 (MAX_TIMESTAMP t0) && decide (x ≤ n)
  | some _ => false
  | none => false

theorem isExpired_eq_isExpiredB (t0 : Int) (m : EphemeralMeta) (n : Int) :
    isExpired t0 (some m) (.num n) = .ok (isExpiredB t0 m n) := by
  cases h : m.expiresAt with
  | none => simp [isExpired, isExpiredB, jsFiniteNumber, h]
  | some e =>
    cases e with
    | num x =>
      cases hv : validateTimestamp (.num x) 0 (MAX_TIMESTAMP t0) <;>
        simp [isExpired, isExpiredB, jsFiniteNumber, h, hv, jsLe]
    | nan => simp [isExpired, isExpiredB, jsFiniteNumber, h, validateTimestamp]
    | inf => simp [isExpired, isExpiredB, jsFiniteNumber, h, validateTimestamp]
    | ninf => simp [isExpired, isExpiredB, jsFiniteNumber, h, validateTimestamp]
    | notNumber =>
      simp [isExpired, isExpiredB, jsFiniteNumber, h, validateTimestamp]

theorem isUnlocked_boundary_aux (t0 T : Int) (h0 : 0 ≤ T)
    (h1 : T ≤ MAX_TIMESTAMP t0) (m : EphemeralMeta)
    (hu : m.unlockAt = some (.num T)) :
    isUnlocked t0 (some m) (.num T) = .ok true ∧
    isUnlocked t0 (some m) (.num (T - 1)) = .ok false := by
  have hv : validateTimestamp (.num T) 0 (MAX_TIMESTAMP t0) = true := by
    simp [validateTimestamp]; omega
  constructor <;> simp [isUnlocked, jsFiniteNumber, hu, hv, jsLe]

/-- C4: with a bounds-valid timestamp `T` (non-negative and at most
`MAX_TIMESTAMP`), `isExpired` on a record with `expiresAt = T` and
`now = T` returns true and with `now = T - 1` returns false; `isExpired`
returns false whenever `expiresAt` is absent or fails bounds validation,
and returns true whenever the record itself is absent; the symmetric
inclusive-bound property holds for `isUnlocked` with `unlockAt`. -/
theorem expiry_inclusive_boundary (t0 T : Int) (h0 : 0 ≤ T)
    (h1 : T ≤ MAX_TIMESTAMP t0) :
    (∀ m : EphemeralMeta, m.expiresAt = some (.num T) →
       isExpired t0 (some m) (.num T) = .ok true ∧
       isExpired t0 (some m) (.num (T - 1)) = .ok false)
    ∧ (∀ (m : EphemeralMeta) (n : Int), m.expiresAt = none →
       isExpired t0 (some m) (.num n) = .ok false)
    ∧ (∀ (m : EphemeralMeta) (e : JSTime) (n : Int), m.expiresAt = some e →
       validateTimestamp e 0 (MAX_TIMESTAMP t0) = false →
       isExpired t0 (some m) (.num n) = .ok false)
    ∧ (∀ now : JSTime, isExpired t0 none now = .ok true)
    ∧ (∀ m : EphemeralMeta, m.unlockAt = some (.num T) →
       isUnlocked t0 (some m) (.num T) = .ok true ∧
       isUnlocked t0 (some m) (.num (T - 1)) = .ok false) := by
  have hv : validateTimestamp (.num T) 0 (MAX_TIMESTAMP t0) = true := by
    simp [validateTimestamp]; omega
  refine ⟨fun m hm => ?_, fun m n hm => ?_, fun m e n hm hval => ?_,
    fun now => rfl, fun m hm => isUnlocked_boundary_aux t0 T h0 h1 m hm⟩
  · constructor <;> simp [isExpired, jsFiniteNumber, hm, hv, jsLe]
  · simp [isExpired, jsFiniteNumber, hm]
  · cases e <;> simp [isExpired, jsFiniteNumber, hm, hval]

theorem expiry_inclusive_boundary_witness :
    (0 : Int) ≤ 1000 ∧ (1000 : Int) ≤ MAX_TIMESTAMP 0 ∧
    isExpired 0 (some { expiresAt := some (.num 1000) }) (.num 1000) =
      .ok true ∧
    isExpired 0 (some { expiresAt := some (.num 1000) }) (.num 999) =
      .ok false ∧
    isUnlocked 0 (some { unlockAt := some (.num 1000) }) (.num 1000) =
      .ok true :=
  ⟨by decide, by decide,
   ((expiry_inclusive_boundary 0 1000 (by decide) (by decide)).1
      { expiresAt := some (.num 1000) } rfl).1,
   by
     have h := ((expiry_inclusive_boundary 0 1000 (by decide)
       (by decide)).1 { expiresAt := some (.num 1000) } rfl).2
     simpa using h,
   ((expiry_inclusive_boundary 0 1000 (by decide)
      (by decide)).2.2.2.2 { unlockAt := some (.num 1000) } rfl).1⟩

/-- C5 counterexample: with an absent record and a non-finite `now`
(`NaN`), `isExpired` returns the boolean true and `isUnlocked` returns the
boolean false — neither signals an error, because the absent-record check
precedes the finiteness check on `now` in the source. -/
theorem invalid_now_absent_record_cex :
    isExpired 0 none JSTime.nan = .ok true ∧
    isUnlocked 0 none JSTime.nan = .ok false :=
  ⟨rfl, rfl⟩

/-- C5 amended: for every PRESENT record and every `now` that is not a
finite number, both `isExpired` and `isUnlocked` signal an error rather
than returning a boolean; when the record is absent they return true
(resp. false) without examining `now` at all. -/
theorem invalid_now_rejected (t0 : Int) (now : JSTime)
    (h : jsFiniteNumber now = false) :
    (∀ m : EphemeralMeta,
       isExpired t0 (some m) now =
         .error "[ephemeral] isExpired: now is required and must be finite" ∧
       isUnlocked t0 (some m) now =
         .error "[ephemeral] isUnlocked: now is required and must be finite")
    ∧ isExpired t0 none now = .ok true
    ∧ isUnlocked t0 none now = .ok false := by
  refine ⟨fun m => ⟨?_, ?_⟩, rfl, rfl⟩
  · simp [isExpired, h]
  · simp [isUnlocked, h]

theorem invalid_now_rejected_witness :
    jsFiniteNumber JSTime.nan = false ∧
    isExpired 0 (some { id := some "a" }) JSTime.nan =
      .error "[ephemeral] isExpired: now is required and must be finite" ∧
    isUnlocked 0 (some { id := some "a" }) JSTime.nan =
      .error "[ephemeral] isUnlocked: now is required and must be finite" :=
  ⟨rfl, ((invalid_now_rejected 0 JSTime.nan rfl).1 { id := some "a" }).1,
   ((invalid_now_rejected 0 JSTime.nan rfl).1 { id := some "a" }).2⟩

/-!
lib/gc.js.  `runEphemeralGC` captures `now` once, materializes the record
list, skips absent (null) entries, and for each present record that
`isExpired` judges expired awaits `ctx.onExpire(meta)` (when supplied)
and then increments the count.  A rejection of `onExpire` is thrown out
of the `await`, aborting the loop.

The callback is an arbitrary effectful JS function; it is embedded
state-passing style as `σ → EphemeralMeta → σ × Option ε`: it updates an
ambient state `σ` and optionally rejects with an error of type `ε`.  The
run returns the thrown error or the count, together with the final
ambient state (side effects performed before a throw persist).
-/

/-- An error thrown out of a GC run: either `isExpired` threw because the
captured `now` was not a finite number, or the `onExpire` callback
rejected. -/
inductive GCError (ε : Type) where
  | invalidNow (msg : String)
  | callback (e : ε)
deriving DecidableEq, Repr

variable {σ ε : Type}

/-- The `for (const meta of metas)` loop of `runEphemeralGC`, carrying
the running `expired` count and the callback's ambient state. -/
def gcLoop (t0 : Int) (onExpire : Option (σ → EphemeralMeta → σ × Option ε))
    (now : JSTime) :
    List (Option EphemeralMeta) → Nat → σ → Except (GCError ε) Nat × σ
  | [], expired, s => (.ok expired, s)
  | none :: rest, expired, s => gcLoop t0 onExpire now rest expired s
  | some m :: rest, expired, s =>
    match isExpired t0 (some m) now with
    | .error msg => (.error (.invalidNow msg), s)
    | .ok false => gcLoop t0 onExpire now rest expired s
    | .ok true =>
      match onExpire with
      | none => gcLoop t0 onExpire now rest (expired + 1) s
      | some f =>
        match f s m with
        | (s2, some e) => (.error (.callback e), s2)
        | (s2, none) => gcLoop t0 onExpire now rest (expired + 1) s2

/-- `runEphemeralGC(ctx, options)` of lib/gc.js, after `now` has been
captured and `listMetas` materialized into `metas`. -/
def runEphemeralGC (t0 : Int)
    (onExpire : Option (σ → EphemeralMeta → σ × Option ε))
    (metas : List (Option EphemeralMeta)) (now : JSTime) (s : σ) :
    Except (GCError ε) Nat × σ :=
  gcLoop t0 onExpire now metas 0 s

/-- The present records of `metas` that the run's snapshot `now = n`
judges expired, in enumeration order. -/
def expiredOf (t0 n : Int) (metas : List (Option EphemeralMeta)) :
    List EphemeralMeta :=
  (metas.filterMap id).filter (fun m => isExpiredB t0 m n)

/-- Sequentially invoke the callback on a list of (expired) records,
stopping at the first rejection; on full success return how many records
were processed. -/
def processExpired (f : σ → EphemeralMeta → σ × Option ε) :
    List EphemeralMeta → σ → Except (GCError ε) Nat × σ
  | [], s => (.ok 0, s)
  | m :: rest, s =>
    match f s m with
    | (s2, some e) => (.error (.callback e), s2)
    | (s2, none) =>
      match processExpired f rest s2 with
      | (.ok k, s3) => (.ok (k + 1), s3)
      | (.error err, s3) => (.error err, s3)

/-- Shift the success count of a GC-run result by `acc`. -/
def addCount (acc : Nat) :
    Except (GCError ε) Nat × σ → Except (GCError ε) Nat × σ
  | (.ok k, s) => (.ok (acc + k), s)
  | (.error e, s) => (.error e, s)

theorem gcLoop_cons_notExpired (t0 : Int)
    (o : Option (σ → EphemeralMeta → σ × Option ε)) (n : Int)
    (m : EphemeralMeta) (rest : List (Option EphemeralMeta)) (acc : Nat)
    (s : σ) (hx : isExpiredB t0 m n = false) :
    gcLoop t0 o (.num n) (some m :: rest) acc s =
      gcLoop t0 o (.num n) rest acc s := by
  simp only [gcLoop, isExpired_eq_isExpiredB, hx]

theorem gcLoop_cons_expired_ok (t0 : Int)
    (f : σ → EphemeralMeta → σ × Option ε) (n : Int) (m : EphemeralMeta)
    (rest : List (Option EphemeralMeta)) (acc : Nat) (s s2 : σ)
    (hx : isExpiredB t0 m n = true) (hf : f s m = (s2, none)) :
    gcLoop t0 (some f) (.num n) (some m :: rest) acc s =
      gcLoop t0 (some f) (.num n) rest (acc + 1) s2 := by
  simp only [gcLoop, isExpired_eq_isExpiredB, hx, hf]

theorem gcLoop_cons_expired_err (t0 : Int)
    (f : σ → EphemeralMeta → σ × Option ε) (n : Int) (m : EphemeralMeta)
    (rest : List (Option EphemeralMeta)) (acc : Nat) (s s2 : σ) (e : ε)
    (hx : isExpiredB t0 m n = true) (hf : f s m = (s2, some e)) :
    gcLoop t0 (some f) (.num n) (some m :: rest) acc s =
      (.error (.callback e), s2) := by
  simp only [gcLoop, isExpired_eq_isExpiredB, hx, hf]

theorem gcLoop_eq_processExpired (t0 : Int)
    (f : σ → EphemeralMeta → σ × Option ε) (n : Int)
    (metas : List (Option EphemeralMeta)) (acc : Nat) (s : σ) :
    gcLoop t0 (some f) (.num n) metas acc s =
      addCount acc (processExpired f (expiredOf t0 n metas) s) := by
  induction metas generalizing acc s with
  | nil => simp [gcLoop, expiredOf, processExpired, addCount]
  | cons hd rest ih =>
    cases hd with
    | none => simpa [gcLoop, expiredOf] using ih acc s
    | some m =>
      cases hx : isExpiredB t0 m n with
      | false =>
        rw [gcLoop_cons_notExpired t0 (some f) n m rest acc s hx]
        simpa [expiredOf, hx] using ih acc s
      | true =>
        have hexp : expiredOf t0 n (some m :: rest) =
            m :: expiredOf t0 n rest := by
          simp [expiredOf, hx]
        rw [hexp]
        cases hf : f s m with
        | mk s2 e? =>
          cases e? with
          | some e =>
            rw [gcLoop_cons_expired_err t0 f n m rest acc s s2 e hx hf]
            simp [processExpired, hf, addCount]
          | none =>
            rw [gcLoop_cons_expired_ok t0 f n m rest acc s s2 hx hf,
              ih (acc + 1) s2]
            rw [show processExpired f (m :: expiredOf t0 n rest) s =
              (match processExpired f (expiredOf t0 n rest) s2 with
              | (.ok k, s3) => (.ok (k + 1), s3)
              | (.error err, s3) => (.error err, s3)) from by
                simp [processExpired, hf]]
            cases hrec : processExpired f (expiredOf t0 n rest) s2 with
            | mk r s3 =>
              cases r with
              | ok k =>
                simp only [addCount]
                have : acc + 1 + k = acc + (k + 1) := by omega
                rw [this]
              | error err => simp [addCount]

theorem addCount_zero (r : Except (GCError ε) Nat × σ) : addCount 0 r = r := by
  cases r with
  | mk v s => cases v <;> simp [addCount]

theorem processExpired_all_ok (f : σ → EphemeralMeta → σ × Option ε)
    (hf : ∀ s m, (f s m).2 = none) (es : List EphemeralMeta) (s : σ) :
    processExpired f es s =
      (.ok es.length, es.foldl (fun a m => (f a m).1) s) := by
  induction es generalizing s with
  | nil => simp [processExpired]
  | cons m rest ih =>
    have h2 := hf s m
    cases hfs : f s m with
    | mk s2 e? =>
      rw [hfs] at h2
      simp only at h2
      subst h2
      simp only [processExpired, hfs, ih s2, List.foldl_cons, List.length_cons,
        hfs]

/-- C1 counterexample: two records both expired at `now = 100`, with an
`onExpire` callback that records its argument and then rejects.  The run
aborts at the first rejection: it returns the thrown error (not a count),
and the callback was invoked only on the first record even though the
second is also expired — contradicting "calls `onExpire` for every
expired record, surfaces the first failure only once enumeration
completes, and still returns an accurate count". -/
theorem gcRun_abort_on_first_callback_failure_cex :
    runEphemeralGC 0
      (some fun (s : List EphemeralMeta) (m : EphemeralMeta) =>
        (s ++ [m], some ()))
      [some { expiresAt := some (.num 10) },
       some { expiresAt := some (.num 20) }]
      (.num 100) [] =
      (.error (.callback ()), [{ expiresAt := some (.num 10) }]) ∧
    isExpiredB 0 { expiresAt := some (.num 20) } 100 = true ∧
    ({ expiresAt := some (.num 20) } : EphemeralMeta) ∉
      [({ expiresAt := some (.num 10) } : EphemeralMeta)] :=
  ⟨rfl, by decide, by decide⟩

/-- C1 amended: on every GC run with an `onExpire` callback and a finite
snapshot `now`, the run invokes the callback on the expired records in
enumeration order and stops at the first callback failure, surfacing that
failure immediately: records after the failing one are not processed and
no count is returned for the run; only when every callback succeeds does
the run return the count of all records judged expired.  Formally, the
run is equivalent to filtering the expired records and processing them
sequentially with early exit (`processExpired`). -/
theorem gcRun_stops_at_first_callback_failure (t0 n : Int)
    (f : σ → EphemeralMeta → σ × Option ε)
    (metas : List (Option EphemeralMeta)) (s : σ) :
    runEphemeralGC t0 (some f) metas (.num n) s =
      processExpired f (expiredOf t0 n metas) s := by
  rw [runEphemeralGC, gcLoop_eq_processExpired, addCount_zero]

/-- C3: with an always-succeeding `onExpire` callback, a GC run over any
record list returns `expired = N` where `N` is the number of present
records judged expired by the snapshot `now`, and the callback is invoked
exactly on those `N` records in enumeration order (the final callback
state is the fold of the callback over exactly that list); absent (null)
entries are skipped without counting as errors, and over an empty list
the result is `expired = 0` with the callback never invoked (state
unchanged). -/
theorem gcRun_success_count (t0 n : Int)
    (f : σ → EphemeralMeta → σ × Option ε)
    (hf : ∀ s m, (f s m).2 = none)
    (metas : List (Option EphemeralMeta)) (s0 : σ) :
    runEphemeralGC t0 (some f) metas (.num n) s0 =
      (.ok (expiredOf t0 n metas).length,
       (expiredOf t0 n metas).foldl (fun a m => (f a m).1) s0) := by
  rw [runEphemeralGC, gcLoop_eq_processExpired,
    processExpired_all_ok f hf, addCount_zero]

theorem gcRun_success_count_witness :
    runEphemeralGC 0
      (some fun (s : List EphemeralMeta) (m : EphemeralMeta) =>
        (s ++ [m], (none : Option Unit)))
      [some { expiresAt := some (.num 10) }, none,
       some { expiresAt := some (.num 200) }, some {}]
      (.num 100) [] =
      (.ok 1, [{ expiresAt := some (.num 10) }]) :=
  (gcRun_success_count 0 100 _ (fun _ _ => rfl)
    [some { expiresAt := some (.num 10) }, none,
     some { expiresAt := some (.num 200) }, some {}] []).trans rfl

/-- C9: the upper bound of the expiry predicate's timestamp validation is
the module-load constant `MAX_TIMESTAMP t0` (module-load wall-clock time
plus 100 years of 365 days), not a function of `now`: a record whose
`expiresAt` is a finite number strictly greater than that constant is
never judged expired — `isExpired` returns false for every finite `now`,
even one far past `expiresAt`, so GC runs never select the record. -/
theorem expiry_bound_is_load_time_constant (t0 : Int) (m : EphemeralMeta)
    (e n : Int) (he : m.expiresAt = some (.num e))
    (hgt : MAX_TIMESTAMP t0 < e) :
    isExpired t0 (some m) (.num n) = .ok false ∧
    isExpiredB t0 m n = false ∧
    ∀ metas : List (Option EphemeralMeta), m ∉ expiredOf t0 n metas := by
  have hv : validateTimestamp (.num e) 0 (MAX_TIMESTAMP t0) = false := by
    simp [validateTimestamp]; omega
  have hb : isExpiredB t0 m n = false := by simp [isExpiredB, he, hv]
  refine ⟨by simp [isExpired, jsFiniteNumber, he, hv], hb, fun metas hmem => ?_⟩
  have := (List.mem_filter.mp hmem).2
  rw [hb] at this
  exact Bool.false_ne_true this

theorem expiry_bound_is_load_time_constant_witness :
    MAX_TIMESTAMP 0 < 3153600000001 ∧
    isExpired 0 (some { expiresAt := some (.num 3153600000001) })
      (.num 99999999999999) = .ok false :=
  ⟨by decide,
   (expiry_bound_is_load_time_constant 0
     { expiresAt := some (.num 3153600000001) } 3153600000001
     99999999999999 rfl (by decide)).1⟩

/-!
lib/time.js.  `createMonotonicNow(options)` closes over `last`
(initialized to the wall clock at creation) and `startTime = last`.  One
call of the returned `now()` reads the wall clock into `current` and:
if `current > startTime + maxForwardMs`, sets
`last = Math.min(current, startTime + maxForwardMs)` and returns it;
else if `current + maxBackwardsMs < last`, returns `last` unchanged;
else if `current >= last`, sets `last = current` and returns it;
else returns `last` unchanged.  In every branch the returned value equals
the stored `last` after the call, so the per-call step is a single
function of `(last, current)`.
-/

/-- One call of the `now()` closure of `createMonotonicNow`: given the
stored `last` and the wall-clock reading `current`, the value returned
(and stored back into `last`). -/
def nowStep (maxBackwardsMs maxForwardMs startTime last current : Int) :
    Int :=
  if startTime + maxForwardMs < current then
    min current (startTime + maxForwardMs)
  else if current + maxBackwardsMs < last then last
  else if last ≤ current then current
  else last

/-- The sequence of values returned by successive calls on one clock
instance, given the stored `last` and the sequence of underlying
wall-clock readings. -/
def monotonicOutputs (maxBackwardsMs maxForwardMs startTime : Int) :
    Int → List Int → List Int
  | _, [] => []
  | last, c :: cs =>
    nowStep maxBackwardsMs maxForwardMs startTime last c ::
      monotonicOutputs maxBackwardsMs maxForwardMs startTime
        (nowStep maxBackwardsMs maxForwardMs startTime last c) cs

/-- A fresh `createMonotonicNow` instance run over a reading sequence:
`last` starts at `startTime` (both are initialized from the same
wall-clock read at creation). -/
def createMonotonicNowRun (maxBackwardsMs maxForwardMs startTime : Int)
    (readings : List Int) : List Int :=
  monotonicOutputs maxBackwardsMs maxForwardMs startTime startTime readings

theorem nowStep_ge_last (maxB maxF startTime last c : Int)
    (h : last ≤ startTime + maxF) :
    last ≤ nowStep maxB maxF startTime last c := by
  unfold nowStep
  split_ifs with h1 h2 h3
  · exact le_min (by omega) h
  · exact le_refl last
  · exact h3
  · exact le_refl last

theorem nowStep_le_bound (maxB maxF startTime last c : Int)
    (h : last ≤ startTime + maxF) :
    nowStep maxB maxF startTime last c ≤ startTime + maxF := by
  unfold nowStep
  split_ifs with h1 h2 h3
  · exact min_le_right _ _
  · exact h
  · omega
  · exact h

theorem monotonicOutputs_chain (maxB maxF startTime : Int)
    (readings : List Int) :
    ∀ last : Int, last ≤ startTime + maxF →
      List.Chain (fun a b => a ≤ b) last
        (monotonicOutputs maxB maxF startTime last readings) ∧
      ∀ v ∈ monotonicOutputs maxB maxF startTime last readings,
        v ≤ startTime + maxF := by
  induction readings with
  | nil => intro last h; simp [monotonicOutputs]
  | cons c cs ih =>
    intro last h
    have hstep := nowStep_ge_last maxB maxF startTime last c h
    have hbound := nowStep_le_bound maxB maxF startTime last c h
    obtain ⟨hchain, hmem⟩ := ih (nowStep maxB maxF startTime last c) hbound
    refine ⟨List.Chain.cons hstep hchain, ?_⟩
    intro v hv
    rw [monotonicOutputs] at hv
    rcases List.mem_cons.mp hv with h1 | h2
    · rw [h1]; exact hbound
    · exact hmem v h2

/-- C2: for every clock instance whose forward-jump ceiling is
non-negative (the default is 3,600,000 ms) and every sequence of
underlying wall-clock readings — including backward and forward jumps —
the sequence of values returned by successive calls is non-decreasing,
and every returned value is bounded above by
`startTime + maxForwardMs`. -/
theorem monotonicNow_monotone_bounded (maxB maxF startTime : Int)
    (readings : List Int) (h : 0 ≤ maxF) :
    List.Chain' (fun a b => a ≤ b)
      (createMonotonicNowRun maxB maxF startTime readings) ∧
    ∀ v ∈ createMonotonicNowRun maxB maxF startTime readings,
      v ≤ startTime + maxF := by
  have hinit : startTime ≤ startTime + maxF := by omega
  obtain ⟨hchain, hmem⟩ :=
    monotonicOutputs_chain maxB maxF startTime readings startTime hinit
  refine ⟨?_, hmem⟩
  unfold createMonotonicNowRun
  cases hout : monotonicOutputs maxB maxF startTime startTime readings with
  | nil => exact List.chain'_nil
  | cons v vs =>
    rw [hout] at hchain
    exact (List.chain_cons.mp hchain).2

theorem monotonicNow_monotone_bounded_witness :
    (0 : Int) ≤ 3600000 ∧
    (List.Chain' (fun a b => a ≤ b)
      (createMonotonicNowRun 1000 3600000 0 [5, 3, -10000, 7000000, 50]) ∧
     ∀ v ∈ createMonotonicNowRun 1000 3600000 0 [5, 3, -10000, 7000000, 50],
       v ≤ 0 + 3600000) :=
  ⟨by decide,
   monotonicNow_monotone_bounded 1000 3600000 0 [5, 3, -10000, 7000000, 50]
     (by decide)⟩

/-!
lib/auto-gc.js.  `createEphemeralAutoGC` owns a timer handle and a
`consecutiveErrors` counter.  The settlement of one tick's
`runEphemeralGC(...)` promise either resets the counter (fulfilled) or
increments it, and once the counter reaches `MAX_CONSECUTIVE_ERRORS = 5`
calls `stop()` (catch handler).  Both outcomes are handled inside
`.then`/`.catch`, so a tick's settlement is a total function on the
controller state: no tick failure ever propagates to the caller.
-/

/-- The mutable state of one auto-GC controller: whether the interval
timer is armed (`timer !== null`) and the consecutive-failure counter. -/
structure AutoGCState where
  timer : Bool
  consecutiveErrors : Nat
deriving DecidableEq, Repr

/-- `MAX_CONSECUTIVE_ERRORS` of lib/auto-gc.js. -/
def MAX_CONSECUTIVE_ERRORS : Nat := 5

/-- `stop()`: no-op when the timer is already cleared, else clears it. -/
def stop (s : AutoGCState) : AutoGCState :=
  if s.timer = false then s
  else { s with timer := false }

/-- `start()`: no-op when the timer is armed, else resets the failure
counter and arms the timer. -/
def start (s : AutoGCState) : AutoGCState :=
  if s.timer = true then s
  else { timer := true, consecutiveErrors := 0 }

/-- `isRunning()`. -/
def isRunning (s : AutoGCState) : Bool := s.timer

/-- The settlement of one tick's GC-run promise: on success reset the
counter to zero; on failure increment it and, once it reaches the
ceiling, `stop()`. -/
def tickSettle (s : AutoGCState) (success : Bool) : AutoGCState :=
  if success then { s with consecutiveErrors := 0 }
  else
    let s2 : AutoGCState :=
      { s with consecutiveErrors := s.consecutiveErrors + 1 }
    if MAX_CONSECUTIVE_ERRORS ≤ s2.consecutiveErrors then stop s2 else s2

/-- A sequence of tick settlements. -/
def runTicks (s : AutoGCState) (outcomes : List Bool) : AutoGCState :=
  outcomes.foldl tickSettle s

theorem tickSettle_stopped (s : AutoGCState) (b : Bool)
    (h : s.timer = false) : (tickSettle s b).timer = false := by
  unfold tickSettle stop
  cases b <;> simp [h]

theorem runTicks_stopped (outcomes : List Bool) :
    ∀ s : AutoGCState, s.timer = false →
      (runTicks s outcomes).timer = false := by
  induction outcomes with
  | nil => intro s h; exact h
  | cons b rest ih =>
    intro s h
    exact ih (tickSettle s b) (tickSettle_stopped s b h)

theorem tickSettle_fail_ceiling (s : AutoGCState)
    (h : MAX_CONSECUTIVE_ERRORS ≤ s.consecutiveErrors + 1) :
    (tickSettle s false).timer = false := by
  have hs : tickSettle s false =
      stop { s with consecutiveErrors := s.consecutiveErrors + 1 } := by
    unfold tickSettle
    simp [h]
  rw [hs]
  unfold stop
  split_ifs with ht
  · exact ht
  · rfl

theorem consecutive_failures_stop :
    ∀ (k : Nat) (s : AutoGCState), 1 ≤ k →
      MAX_CONSECUTIVE_ERRORS ≤ s.consecutiveErrors + k →
      (runTicks s (List.replicate k false)).timer = false := by
  intro k
  induction k with
  | zero => intro s h1; omega
  | succ k ih =>
    intro s _ hsum
    rw [List.replicate_succ]
    have hr : runTicks s (false :: List.replicate k false) =
        runTicks (tickSettle s false) (List.replicate k false) := rfl
    rw [hr]
    by_cases hceil :
        MAX_CONSECUTIVE_ERRORS ≤ s.consecutiveErrors + 1
    · exact runTicks_stopped (List.replicate k false) _
        (tickSettle_fail_ceiling s hceil)
    · have hs2 : tickSettle s false =
          { s with consecutiveErrors := s.consecutiveErrors + 1 } := by
        unfold tickSettle
        simp [hceil]
      rw [hs2]
      have hk : 1 ≤ k := by
        simp only [MAX_CONSECUTIVE_ERRORS] at hceil hsum
        omega
      refine ih _ hk ?_
      simp only [MAX_CONSECUTIVE_ERRORS] at hsum ⊢
      omega

/-- C6: five consecutive tick failures drive any controller state to
Stopped (`isRunning` false) without external intervention, and a tick
success resets the consecutive-failure counter to zero.  Tick settlement
is a total function on the controller state (the promise handlers catch
every failure), so no tick failure raises out of the scheduler. -/
theorem autoGC_self_stop_and_reset (s : AutoGCState) :
    isRunning (runTicks s (List.replicate 5 false)) = false ∧
    (tickSettle s true).consecutiveErrors = 0 := by
  constructor
  · exact consecutive_failures_stop 5 s (by omega)
      (by simp [MAX_CONSECUTIVE_ERRORS])
  · simp [tickSettle]

/-!
lib/hyperdrive-adapter.js.  Ids and path components are JS values that
may not be strings; an `Option String` argument is `none` for a
non-string.  The character class of the id regex `^[a-zA-Z0-9_-]+$` is
ASCII-only, and JS string length agrees with the Lean character count on
all strings the class accepts, so `String.length` is a faithful model of
`.length` at every point where the outcome matters.
-/

/-- Membership in the character class of `/^[a-zA-Z0-9_-]+$/`. -/
def isIdChar (c : Char) : Bool :=
  ('a' ≤ c && c ≤ 'z') || ('A' ≤ c && c ≤ 'Z') ||
    ('0' ≤ c && c ≤ '9') || c == '_' || c == '-'

/-- `validateMetaId(id)` of lib/hyperdrive-adapter.js: false for a
non-string; false when the length is 0 or exceeds 255; false when the
regex `^[a-zA-Z0-9_-]+$` does not match (all characters in the class and
at least one — nonemptiness is already forced by the length check);
else true. -/
def validateMetaId : Option String → Bool
  | none => false
  | some s =>
    if (s.length == 0) || (decide (255 < s.length)) then false
    else if (s.data.all isIdChar) = false then false
    else true

/-- JS `component.includes(\x22..\x22)`: two consecutive dots occur. -/
def hasDotDot : List Char → Bool
  | c1 :: c2 :: rest => (c1 == '.' && c2 == '.') || hasDotDot (c2 :: rest)
  | _ => false

/-- `sanitizePathComponent(component)` of lib/hyperdrive-adapter.js:
null for a non-string; null when the component contains `..`, `/` or
`\`; null when the length is 0 or exceeds 255; else the component
unchanged. -/
def sanitizePathComponent : Option String → Option String
  | none => none
  | some s =>
    if hasDotDot s.data || s.data.contains '/' || s.data.contains '\\' then
      none
    else if (s.length == 0) || (decide (255 < s.length)) then none
    else some s

/-- The backing Hyperdrive, modelled as a pure path-indexed store of
records (the byte-level JSON serialization is abstracted away: `put`
stores the record value itself). -/
abbrev DriveState : Type := List (String × EphemeralMeta)

/-- `drive.put(path, buf)`. -/
def drivePut (d : DriveState) (path : String) (m : EphemeralMeta) :
    DriveState :=
  (path, m) :: d

/-- `drive.del(path)`. -/
def driveDel (d : DriveState) (path : String) : DriveState :=
  List.filter (fun kv => !(kv.1 == path)) d

/-- `drive.exists(path)`. -/
def driveExists (d : DriveState) (path : String) : Bool :=
  List.any d (fun kv => kv.1 == path)

/-- `saveMetaToHyperdrive(drive, prefix, metaFile, meta)`: validate the
id format, re-check it through `sanitizePathComponent`, sanitize the
meta-file name, and only then write at
`prefix + "/" + id + "/" + metaFileName`.  A thrown error is `.error`
with the thrown message; no `.ok` state exists for a throw, matching the
source where every throw happens before the single `drive.put`. -/
def saveMetaToHyperdrive (drive : DriveState) (pfx metaFile : String)
    (meta : EphemeralMeta) : Except String DriveState :=
  if validateMetaId meta.id = false then
    .error "Invalid meta.id: must be a non-empty string (max 255 chars, alphanumeric/hyphen/underscore only)"
  else
    match sanitizePathComponent meta.id with
    | none => .error "Invalid meta.id"
    | some id =>
      match sanitizePathComponent (some metaFile) with
      | none => .error "Invalid metaFile"
      | some metaFileName =>
        .ok (drivePut drive (pfx ++ "/" ++ id ++ "/" ++ metaFileName) meta)

/-- `deleteFilesFromHyperdrive(drive, prefix, filesToDelete, meta)`: an
invalid id only logs a warning and returns with the drive untouched;
otherwise each sanitized file name is deleted under `prefix + "/" + id`,
then (the `drive.exists` verification pass) any file still present is
deleted again.  Every per-file failure is caught internally, so the
operation is total and never rejects. -/
def deleteFilesFromHyperdrive (drive : DriveState) (pfx : String)
    (filesToDelete : List (Option String)) (meta : EphemeralMeta) :
    DriveState :=
  if validateMetaId meta.id = false then drive
  else
    match sanitizePathComponent meta.id with
    | none => drive
    | some id =>
      let base := pfx ++ "/" ++ id
      let sanitizedFiles := filesToDelete.filterMap sanitizePathComponent
      let d1 := sanitizedFiles.foldl
        (fun d name => driveDel d (base ++ "/" ++ name)) drive
      sanitizedFiles.foldl
        (fun d name =>
          if driveExists d (base ++ "/" ++ name) = true then
            driveDel d (base ++ "/" ++ name)
          else d) d1

theorem validateMetaId_eq_true_iff (s : String) :
    validateMetaId (some s) = true ↔
      1 ≤ s.length ∧ s.length ≤ 255 ∧ s.data.all isIdChar = true := by
  have hdef : validateMetaId (some s) =
      (if ((s.length == 0) || (decide (255 < s.length))) = true then false
       else if s.data.all isIdChar = false then false else true) := rfl
  rw [hdef]
  by_cases hb : ((s.length == 0) || (decide (255 < s.length))) = true
  · rw [if_pos hb]
    have hlen : s.length = 0 ∨ 255 < s.length := by
      rcases Bool.or_eq_true_iff.mp hb with h | h
      · exact Or.inl (beq_iff_eq.mp h)
      · exact Or.inr (of_decide_eq_true h)
    refine iff_of_false Bool.false_ne_true ?_
    rintro ⟨ha, hb2, _⟩
    omega
  · rw [if_neg hb]
    have hz : s.length ≠ 0 := by
      intro hc
      exact hb (by simp [hc])
    have hsz : ¬(255 < s.length) := by
      intro hc
      exact hb (by simp [hc])
    by_cases hall : s.data.all isIdChar = false
    · rw [if_pos hall]
      refine iff_of_false Bool.false_ne_true ?_
      rintro ⟨_, _, h3⟩
      rw [h3] at hall
      exact absurd hall (by decide)
    · rw [if_neg hall]
      have hall2 : s.data.all isIdChar = true := by
        cases hx : s.data.all isIdChar
        · exact absurd hx hall
        · rfl
      exact iff_of_true rfl ⟨by omega, by omega, hall2⟩

theorem validateMetaId_false_of_badChar (s : String) (c : Char)
    (hc : c ∈ s.data) (hbad : isIdChar c = false) :
    validateMetaId (some s) = false := by
  cases hv : validateMetaId (some s)
  · rfl
  · exfalso
    have hall := ((validateMetaId_eq_true_iff s).mp hv).2.2
    have := List.all_eq_true.mp hall c hc
    rw [hbad] at this
    exact Bool.false_ne_true this

theorem hasDotDot_mem (l : List Char) (h : hasDotDot l = true) :
    ('.' : Char) ∈ l := by
  induction l with
  | nil => exact absurd h (by simp [hasDotDot])
  | cons c rest ih =>
    cases rest with
    | nil => exact absurd h (by simp [hasDotDot])
    | cons c2 rest2 =>
      rw [hasDotDot] at h
      rcases Bool.or_eq_true_iff.mp h with h1 | h1
      · have hc : c = '.' := by
          have := (Bool.and_eq_true_iff.mp h1).1
          exact beq_iff_eq.mp this
        rw [hc]; exact List.mem_cons_self _ _
      · exact List.mem_cons_of_mem c (ih h1)

/-- C8: `validateMetaId` returns true exactly on strings of 1–255
characters drawn from `[A-Za-z0-9_-]`; in particular it rejects
non-strings, the empty string, 256-character strings, and any string
containing `..`, `/`, `\` or whitespace. -/
theorem validateId_spec (s : String) :
    (validateMetaId (some s) = true ↔
      1 ≤ s.length ∧ s.length ≤ 255 ∧ s.data.all isIdChar = true)
    ∧ validateMetaId none = false
    ∧ validateMetaId (some "") = false
    ∧ (s.length = 256 → validateMetaId (some s) = false)
    ∧ (hasDotDot s.data = true → validateMetaId (some s) = false)
    ∧ (s.data.contains '/' = true → validateMetaId (some s) = false)
    ∧ (s.data.contains '\\' = true → validateMetaId (some s) = false)
    ∧ (∀ c ∈ s.data, (c == ' ' || c == '\t' || c == '\n' || c == '\r')
        = true → validateMetaId (some s) = false) := by
  refine ⟨validateMetaId_eq_true_iff s, rfl, by decide, ?_, ?_, ?_, ?_, ?_⟩
  · intro hlen
    cases hv : validateMetaId (some s)
    · rfl
    · have := ((validateMetaId_eq_true_iff s).mp hv).2.1
      omega
  · intro h
    exact validateMetaId_false_of_badChar s '.' (hasDotDot_mem _ h)
      (by decide)
  · intro h
    exact validateMetaId_false_of_badChar s '/'
      (List.elem_iff.mp h) (by decide)
  · intro h
    exact validateMetaId_false_of_badChar s '\\'
      (List.elem_iff.mp h) (by decide)
  · intro c hc hws
    have hc4 : c = ' ' ∨ c = '\t' ∨ c = '\n' ∨ c = '\x0d' := by
      rcases Bool.or_eq_true_iff.mp hws with h1 | h1
      · rcases Bool.or_eq_true_iff.mp h1 with h2 | h2
        · rcases Bool.or_eq_true_iff.mp h2 with h3 | h3
          · exact Or.inl (beq_iff_eq.mp h3)
          · exact Or.inr (Or.inl (beq_iff_eq.mp h3))
        · exact Or.inr (Or.inr (Or.inl (beq_iff_eq.mp h2)))
      · exact Or.inr (Or.inr (Or.inr (beq_iff_eq.mp h1)))
    have hbad : isIdChar c = false := by
      rcases hc4 with h | h | h | h <;> rw [h] <;> decide
    exact validateMetaId_false_of_badChar s c hc hbad

theorem validateId_spec_witness :
    validateMetaId (some "session-1") = true ∧
    validateMetaId (some "a..b") = false ∧
    validateMetaId (some "a/b") = false ∧
    validateMetaId (some "a b") = false :=
  ⟨(validateId_spec "session-1").1.mpr (by decide),
   (validateId_spec "a..b").2.2.2.2.1 (by decide),
   (validateId_spec "a/b").2.2.2.2.2.1 (by decide),
   (validateId_spec "a b").2.2.2.2.2.2.2 ' ' (by decide) (by decide)⟩

theorem sanitizePathComponent_of_validateMetaId (s : String)
    (h : validateMetaId (some s) = true) :
    sanitizePathComponent (some s) = some s := by
  obtain ⟨h1, h2, h3⟩ := (validateMetaId_eq_true_iff s).mp h
  have hdot : hasDotDot s.data = false := by
    cases hx : hasDotDot s.data
    · rfl
    · exfalso
      have := List.all_eq_true.mp h3 '.' (hasDotDot_mem _ hx)
      exact absurd this (by decide)
  have hslash : s.data.contains '/' = false := by
    cases hx : s.data.contains '/'
    · rfl
    · exfalso
      have := List.all_eq_true.mp h3 '/' (List.elem_iff.mp hx)
      exact absurd this (by decide)
  have hbs : s.data.contains '\\' = false := by
    cases hx : s.data.contains '\\'
    · rfl
    · exfalso
      have := List.all_eq_true.mp h3 '\\' (List.elem_iff.mp hx)
      exact absurd this (by decide)
  have hz : (s.length == 0) = false := by
    cases hx : s.length == 0
    · rfl
    · exfalso
      have := beq_iff_eq.mp hx
      omega
  have hsz : (decide (255 < s.length)) = false := by
    cases hx : decide (255 < s.length)
    · rfl
    · exfalso
      have := of_decide_eq_true hx
      omega
  have hdef : sanitizePathComponent (some s) =
      (if hasDotDot s.data || s.data.contains '/' ||
          s.data.contains '\\' then none
       else if (s.length == 0) || (decide (255 < s.length)) then none
       else some s) := rfl
  rw [hdef, hdot, hslash, hbs, hz, hsz]
  rfl

/-- C7: `saveMetaToHyperdrive` rejects with the invalid-id error and
stores nothing (no `.ok` state exists) whenever the record's id fails
validation; with a valid id it rejects with the invalid-meta-file error
and stores nothing whenever the meta-file name fails sanitization; when
both pass, the record is written exactly at
`prefix + "/" + id + "/" + metaFile`. -/
theorem saveMeta_validation (drive : DriveState) (pfx metaFile : String)
    (meta : EphemeralMeta) :
    (validateMetaId meta.id = false →
       saveMetaToHyperdrive drive pfx metaFile meta =
         .error "Invalid meta.id: must be a non-empty string (max 255 chars, alphanumeric/hyphen/underscore only)")
    ∧ (∀ s, meta.id = some s → validateMetaId meta.id = true →
       sanitizePathComponent (some metaFile) = none →
       saveMetaToHyperdrive drive pfx metaFile meta =
         .error "Invalid metaFile")
    ∧ (∀ s, meta.id = some s → validateMetaId meta.id = true →
       sanitizePathComponent (some metaFile) = some metaFile →
       saveMetaToHyperdrive drive pfx metaFile meta =
         .ok (drivePut drive (pfx ++ "/" ++ s ++ "/" ++ metaFile) meta)) := by
  refine ⟨fun h => ?_, fun s hs h hm => ?_, fun s hs h hm => ?_⟩
  · simp [saveMetaToHyperdrive, h]
  · have h2 : validateMetaId (some s) = true := hs ▸ h
    have hsan := sanitizePathComponent_of_validateMetaId s h2
    simp [saveMetaToHyperdrive, h, h2, hs, hsan, hm]
  · have h2 : validateMetaId (some s) = true := hs ▸ h
    have hsan := sanitizePathComponent_of_validateMetaId s h2
    simp [saveMetaToHyperdrive, h, h2, hs, hsan, hm]

theorem saveMeta_validation_witness :
    saveMetaToHyperdrive [] "/sessions" "meta.json" { id := some "abc" } =
      .ok [("/sessions/abc/meta.json", { id := some "abc" })] ∧
    saveMetaToHyperdrive [] "/sessions" "meta.json" { id := some "a/b" } =
      .error "Invalid meta.id: must be a non-empty string (max 255 chars, alphanumeric/hyphen/underscore only)" :=
  ⟨((saveMeta_validation [] "/sessions" "meta.json"
      { id := some "abc" }).2.2 "abc" rfl (by decide) (by decide)).trans rfl,
   (saveMeta_validation [] "/sessions" "meta.json"
      { id := some "a/b" }).1 (by decide)⟩

/-- C10: when a record's id fails the id-format validation, the
Hyperdrive adapter's `onExpire` operation (`deleteFilesFromHyperdrive`)
returns with the drive state unchanged — no file is deleted — and it is a
total function, so it completes without raising (the invalid id is only
reported through a `console.warn` diagnostic, which the embedding does
not model). -/
theorem deleteFiles_invalid_id_noop (drive : DriveState) (pfx : String)
    (filesToDelete : List (Option String)) (meta : EphemeralMeta)
    (h : validateMetaId meta.id = false) :
    deleteFilesFromHyperdrive drive pfx filesToDelete meta = drive := by
  simp [deleteFilesFromHyperdrive, h]

theorem deleteFiles_invalid_id_noop_witness :
    validateMetaId (some "../x") = false ∧
    deleteFilesFromHyperdrive [("/p/a/f", {})] "/p" [some "f"]
      { id := some "../x" } = [("/p/a/f", {})] :=
  ⟨by decide,
   deleteFiles_invalid_id_noop [("/p/a/f", {})] "/p" [some "f"]
     { id := some "../x" } (by decide)⟩

end Hyperfade
